import Mathlib

/-
Verification of the crop-and-resize (ROI Align style) kernel interface of
pytorch-mask-rcnn.  The repository supplies only the declaration header
`crop_and_resize_kernel.h` (the prototypes of `CropAndResizeLaucher` and
`CropAndResizeBackpropImageLaucher`); the kernel bodies are not part of the
supplied source, so the numerical operation is modelled from the design
document.  Real-valued samples are embedded as rationals; flat row-major
buffers are embedded as total functions from flat indices to values, and
the per-element kernel threads become per-index pure computations.
-/

namespace CropAndResize

/-- Geometric parameters shared by both launchers, mirroring the scalar
arguments of the header prototypes. -/
structure Params where
  num_boxes : ℕ
  batch : ℕ
  image_height : ℕ
  image_width : ℕ
  crop_height : ℕ
  crop_width : ℕ
  depth : ℕ
deriving Repr, DecidableEq

/-- One normalized box (y1, x1, y2, x2), four consecutive floats of
`boxes_ptr` per box. -/
structure Box where
  y1 : ℚ
  x1 : ℚ
  y2 : ℚ
  x2 : ℚ
deriving Repr, DecidableEq

/-- Row-major flat index into the image batch buffer of shape
(batch, image_height, image_width, depth). -/
def imgIdx (p : Params) (b y x c : ℕ) : ℕ :=
  ((b * p.image_height + y) * p.image_width + x) * p.depth + c

/-- Row-major flat index into the crops buffer of shape
(num_boxes, crop_height, crop_width, depth). -/
def cropIdx (p : Params) (b i j c : ℕ) : ℕ :=
  ((b * p.crop_height + i) * p.crop_width + j) * p.depth + c

/-- Number of elements of the crops buffer: one logical thread per
(box, output row, output col, channel) tuple. -/
def totalCrops (p : Params) : ℕ :=
  p.num_boxes * p.crop_height * p.crop_width * p.depth

/-- Recover (box, output row, output col, channel) from a flat crops index,
row-major with channel fastest. -/
def decodeCrop (p : Params) (idx : ℕ) : ℕ × ℕ × ℕ × ℕ :=
  (idx / p.depth / p.crop_width / p.crop_height,
   idx / p.depth / p.crop_width % p.crop_height,
   idx / p.depth % p.crop_width,
   idx % p.depth)

/-- The geometric in-bounds test on an absolute source coordinate:
inside [0, image_height-1] x [0, image_width-1]. -/
def inBounds (p : Params) (y x : ℚ) : Prop :=
  0 ≤ y ∧ y ≤ (p.image_height : ℚ) - 1 ∧ 0 ≤ x ∧ x ≤ (p.image_width : ℚ) - 1

instance (p : Params) (y x : ℚ) : Decidable (inBounds p y x) := by
  unfold inBounds; exact inferInstance

/-- Integer-coordinate in-range test for a single neighbor sample. -/
def idxInRange (p : Params) (y x : ℤ) : Prop :=
  0 ≤ y ∧ y ≤ (p.image_height : ℤ) - 1 ∧ 0 ≤ x ∧ x ≤ (p.image_width : ℤ) - 1

instance (p : Params) (y x : ℤ) : Decidable (idxInRange p y x) := by
  unfold idxInRange; exact inferInstance

/-- Modelled from the spec: the neighbor-sample fetch used by the forward
sampler, whose body is absent from the supplied source.  An in-range
integer-coordinate neighbor reads the image buffer at the row-major flat
index; an out-of-range neighbor contributes the extrapolation value rather
than being clamped to the border. -/
def fetch (p : Params) (image : ℕ → ℚ) (extrap : ℚ) (b : ℕ) (y x : ℤ) (c : ℕ) : ℚ :=
  if idxInRange p y x then image (imgIdx p b y.toNat x.toNat c)
  else extrap

/-- Modelled from the spec: absolute source row coordinate for output row i
of a box, part of the missing kernel body.  For crop_height > 1 the output
row index maps linearly from y1*(H-1) to y2*(H-1); for a degenerate
crop_height the midpoint of the box extent is sampled. -/
def srcY (p : Params) (box : Box) (i : ℕ) : ℚ :=
  if 1 < p.crop_height then
    box.y1 * ((p.image_height : ℚ) - 1)
      + (i : ℚ) * ((box.y2 - box.y1) * ((p.image_height : ℚ) - 1)
          / ((p.crop_height : ℚ) - 1))
  else
    (box.y1 + box.y2) / 2 * ((p.image_height : ℚ) - 1)

/-- Modelled from the spec: absolute source column coordinate for output
column j of a box, part of the missing kernel body; mirrors `srcY`. -/
def srcX (p : Params) (box : Box) (j : ℕ) : ℚ :=
  if 1 < p.crop_width then
    box.x1 * ((p.image_width : ℚ) - 1)
      + (j : ℚ) * ((box.x2 - box.x1) * ((p.image_width : ℚ) - 1)
          / ((p.crop_width : ℚ) - 1))
  else
    (box.x1 + box.x2) / 2 * ((p.image_width : ℚ) - 1)

/-- Modelled from the spec: one forward-kernel thread, the per-element body
missing from the supplied source.  Computes the fractional source coordinate
of output element (row i, col j, channel c) of a box; writes the
extrapolation value when it is out of bounds, and otherwise bilinearly
interpolates the four neighboring integer-coordinate samples with top-left
floor indices and fractional weights. -/
def cropElem (p : Params) (image : ℕ → ℚ) (box : Box) (bInd : ℤ) (extrap : ℚ)
    (i j c : ℕ) : ℚ :=
  let y := srcY p box i
  let x := srcX p box j
  if inBounds p y x then
    let ty : ℤ := ⌊y⌋
    let lx : ℤ := ⌊x⌋
    let yl : ℚ := y - (ty : ℚ)
    let xl : ℚ := x - (lx : ℚ)
    let tl := fetch p image extrap bInd.toNat ty lx c
    let tr := fetch p image extrap bInd.toNat ty (lx + 1) c
    let bl := fetch p image extrap bInd.toNat (ty + 1) lx c
    let br := fetch p image extrap bInd.toNat (ty + 1) (lx + 1) c
    let top := tl + (tr - tl) * xl
    let bottom := bl + (br - bl) * xl
    top + (bottom - top) * yl
  else extrap

/-- The forward-kernel thread addressed by a flat crops index. -/
def cropElemAt (p : Params) (image : ℕ → ℚ) (boxes : ℕ → Box) (boxInd : ℕ → ℤ)
    (extrap : ℚ) (idx : ℕ) : ℚ :=
  cropElem p image (boxes (decodeCrop p idx).1) (boxInd (decodeCrop p idx).1)
    extrap (decodeCrop p idx).2.1 (decodeCrop p idx).2.2.1 (decodeCrop p idx).2.2.2

/-- Modelled from the spec: the forward launcher `CropAndResizeLaucher`,
whose kernel body is absent from the supplied source.  Every element of the
destination buffer below `totalCrops` is written with its interpolated
sample; the rest of the address space is untouched. -/
def crop_and_resize (p : Params) (image : ℕ → ℚ) (boxes : ℕ → Box)
    (boxInd : ℕ → ℤ) (extrap : ℚ) (crops : ℕ → ℚ) : ℕ → ℚ :=
  fun idx =>
    if idx < totalCrops p then cropElemAt p image boxes boxInd extrap idx
    else crops idx

/-- Modelled from the spec: a single guarded accumulation of the backward
scatter, part of the missing kernel body.  Adds v into the destination
gradient buffer at an integer-coordinate source location when that location
is inside the image, and does nothing otherwise. -/
def addIfIn (p : Params) (acc : ℕ → ℚ) (b : ℕ) (y x : ℤ) (c : ℕ) (v : ℚ) :
    ℕ → ℚ :=
  if idxInRange p y x then
    fun q => if q = imgIdx p b y.toNat x.toNat c then acc q + v else acc q
  else acc

/-- Modelled from the spec: one backward-kernel thread, the per-element body
missing from the supplied source.  Recomputes the forward source coordinate
and bilinear weights of one incoming gradient element, and adds the weighted
gradient to each of the (up to) four contributing source locations; an
out-of-bounds source coordinate contributes nothing. -/
def scatterElem (p : Params) (g : ℚ) (box : Box) (bInd : ℤ) (i j c : ℕ)
    (acc : ℕ → ℚ) : ℕ → ℚ :=
  let y := srcY p box i
  let x := srcX p box j
  if inBounds p y x then
    let ty : ℤ := ⌊y⌋
    let lx : ℤ := ⌊x⌋
    let yl : ℚ := y - (ty : ℚ)
    let xl : ℚ := x - (lx : ℚ)
    let a1 := addIfIn p acc bInd.toNat ty lx c (g * (1 - yl) * (1 - xl))
    let a2 := addIfIn p a1 bInd.toNat ty (lx + 1) c (g * (1 - yl) * xl)
    let a3 := addIfIn p a2 bInd.toNat (ty + 1) lx c (g * yl * (1 - xl))
    addIfIn p a3 bInd.toNat (ty + 1) (lx + 1) c (g * yl * xl)
  else acc

/-- The backward-kernel thread addressed by a flat incoming-gradient index. -/
def backStep (p : Params) (grads : ℕ → ℚ) (boxes : ℕ → Box) (boxInd : ℕ → ℤ)
    (acc : ℕ → ℚ) (idx : ℕ) : ℕ → ℚ :=
  scatterElem p (grads idx) (boxes (decodeCrop p idx).1)
    (boxInd (decodeCrop p idx).1) (decodeCrop p idx).2.1
    (decodeCrop p idx).2.2.1 (decodeCrop p idx).2.2.2 acc

/-- Modelled from the spec: the backward launcher
`CropAndResizeBackpropImageLaucher`, whose kernel body is absent from the
supplied source.  Accumulates every incoming gradient element into the
caller-supplied (pre-zeroed) image-gradient buffer; it takes no
extrapolation-value argument, exactly as in the header prototype. -/
def crop_and_resize_backward (p : Params) (grads : ℕ → ℚ) (boxes : ℕ → Box)
    (boxInd : ℕ → ℤ) (gradsImage : ℕ → ℚ) : ℕ → ℚ :=
  (List.range (totalCrops p)).foldl (backStep p grads boxes boxInd) gradsImage

/-- Total contribution of one incoming gradient element to one source cell q,
through one neighbor at integer coordinates (y, x) with bilinear weight w:
w when the neighbor is in range and its flat index is q, and 0 otherwise. -/
def neighborContrib (p : Params) (b : ℕ) (y x : ℤ) (c : ℕ) (w : ℚ) (q : ℕ) : ℚ :=
  if idxInRange p y x ∧ q = imgIdx p b y.toNat x.toNat c then w else 0

/-- Total contribution of the incoming gradient element at flat index idx to
the source cell q: the sum over the four neighbors of the recomputed source
coordinate of the bilinearly weighted gradient, and 0 when the source
coordinate is out of bounds. -/
def contribAt (p : Params) (grads : ℕ → ℚ) (boxes : ℕ → Box) (boxInd : ℕ → ℤ)
    (idx q : ℕ) : ℚ :=
  let b := (decodeCrop p idx).1
  let y := srcY p (boxes b) (decodeCrop p idx).2.1
  let x := srcX p (boxes b) (decodeCrop p idx).2.2.1
  let c := (decodeCrop p idx).2.2.2
  if inBounds p y x then
    let ty : ℤ := ⌊y⌋
    let lx : ℤ := ⌊x⌋
    let yl : ℚ := y - (ty : ℚ)
    let xl : ℚ := x - (lx : ℚ)
    let g := grads idx
    neighborContrib p (boxInd b).toNat ty lx c (g * (1 - yl) * (1 - xl)) q
      + neighborContrib p (boxInd b).toNat ty (lx + 1) c (g * (1 - yl) * xl) q
      + neighborContrib p (boxInd b).toNat (ty + 1) lx c (g * yl * (1 - xl)) q
      + neighborContrib p (boxInd b).toNat (ty + 1) (lx + 1) c (g * yl * xl) q
  else 0

/-- The forward-pass bilinear weight with which source cell q enters the
output element at flat index idx: the sum, over the in-range neighbors of the
element's source coordinate whose flat index is q, of the fractional bilinear
weights; 0 for an out-of-bounds source coordinate. -/
def fwdWeight (p : Params) (boxes : ℕ → Box) (boxInd : ℕ → ℤ) (idx q : ℕ) : ℚ :=
  let b := (decodeCrop p idx).1
  let y := srcY p (boxes b) (decodeCrop p idx).2.1
  let x := srcX p (boxes b) (decodeCrop p idx).2.2.1
  let c := (decodeCrop p idx).2.2.2
  if inBounds p y x then
    let ty : ℤ := ⌊y⌋
    let lx : ℤ := ⌊x⌋
    let yl : ℚ := y - (ty : ℚ)
    let xl : ℚ := x - (lx : ℚ)
    neighborContrib p (boxInd b).toNat ty lx c ((1 - yl) * (1 - xl)) q
      + neighborContrib p (boxInd b).toNat ty (lx + 1) c ((1 - yl) * xl) q
      + neighborContrib p (boxInd b).toNat (ty + 1) lx c (yl * (1 - xl)) q
      + neighborContrib p (boxInd b).toNat (ty + 1) (lx + 1) c (yl * xl) q
  else 0

/-! ### Index arithmetic -/

theorem flat_div (X c d : ℕ) (hd : 0 < d) (hc : c < d) : (X * d + c) / d = X := by
  rw [Nat.mul_comm, Nat.mul_add_div hd, Nat.div_eq_of_lt hc, Nat.add_zero]

theorem flat_mod (X c d : ℕ) (hc : c < d) : (X * d + c) % d = c := by
  rw [Nat.mul_comm, Nat.mul_add_mod, Nat.mod_eq_of_lt hc]

theorem decodeCrop_cropIdx (p : Params) (b i j c : ℕ) (hi : i < p.crop_height)
    (hj : j < p.crop_width) (hc : c < p.depth) :
    decodeCrop p (cropIdx p b i j c) = (b, i, j, c) := by
  have hd : 0 < p.depth := Nat.lt_of_le_of_lt (Nat.zero_le _) hc
  have hw : 0 < p.crop_width := Nat.lt_of_le_of_lt (Nat.zero_le _) hj
  have h1 : cropIdx p b i j c / p.depth = (b * p.crop_height + i) * p.crop_width + j :=
    flat_div _ _ _ hd hc
  have h2 : cropIdx p b i j c % p.depth = c := flat_mod _ _ _ hc
  have h3 : cropIdx p b i j c / p.depth / p.crop_width = b * p.crop_height + i := by
    rw [h1]; exact flat_div _ _ _ hw hj
  have h4 : cropIdx p b i j c / p.depth % p.crop_width = j := by
    rw [h1]; exact flat_mod _ _ _ hj
  have h5 : cropIdx p b i j c / p.depth / p.crop_width / p.crop_height = b := by
    rw [h3, Nat.mul_comm, Nat.mul_add_div (Nat.lt_of_le_of_lt (Nat.zero_le _) hi),
      Nat.div_eq_of_lt hi, Nat.add_zero]
  have h6 : cropIdx p b i j c / p.depth / p.crop_width % p.crop_height = i := by
    rw [h3, Nat.mul_comm, Nat.mul_add_mod, Nat.mod_eq_of_lt hi]
  unfold decodeCrop
  rw [h2, h4, h5, h6]

theorem pair_lt {a A x X : ℕ} (ha : a < A) (hx : x < X) : a * X + x < A * X :=
  calc a * X + x < a * X + X := by omega
    _ = (a + 1) * X := by ring
    _ ≤ A * X := Nat.mul_le_mul_right X ha

theorem cropIdx_lt_totalCrops (p : Params) (b i j c : ℕ) (hb : b < p.num_boxes)
    (hi : i < p.crop_height) (hj : j < p.crop_width) (hc : c < p.depth) :
    cropIdx p b i j c < totalCrops p :=
  pair_lt (pair_lt (pair_lt hb hi) hj) hc

/-! ### Pointwise characterization of the backward scatter -/

theorem addIfIn_pointwise (p : Params) (acc : ℕ → ℚ) (b : ℕ) (y x : ℤ) (c : ℕ)
    (v : ℚ) (q : ℕ) :
    addIfIn p acc b y x c v q = acc q + neighborContrib p b y x c v q := by
  unfold addIfIn neighborContrib
  by_cases hr : idxInRange p y x
  · by_cases hq : q = imgIdx p b y.toNat x.toNat c
    · simp [hr, hq]
    · simp [hr, hq]
  · simp [hr]

theorem backStep_pointwise (p : Params) (grads : ℕ → ℚ) (boxes : ℕ → Box)
    (boxInd : ℕ → ℤ) (acc : ℕ → ℚ) (idx q : ℕ) :
    backStep p grads boxes boxInd acc idx q
      = acc q + contribAt p grads boxes boxInd idx q := by
  unfold backStep scatterElem contribAt
  by_cases hin : inBounds p (srcY p (boxes (decodeCrop p idx).1) (decodeCrop p idx).2.1)
      (srcX p (boxes (decodeCrop p idx).1) (decodeCrop p idx).2.2.1)
  · simp only [hin, if_true, addIfIn_pointwise]
    ring
  · simp [hin]

theorem foldl_backStep_pointwise (p : Params) (grads : ℕ → ℚ) (boxes : ℕ → Box)
    (boxInd : ℕ → ℤ) (l : List ℕ) (init : ℕ → ℚ) (q : ℕ) :
    (l.foldl (backStep p grads boxes boxInd) init) q
      = init q + (l.map (fun idx => contribAt p grads boxes boxInd idx q)).sum := by
  induction l generalizing init with
  | nil => simp
  | cons a t ih =>
    simp only [List.foldl_cons, List.map_cons, List.sum_cons, ih,
      backStep_pointwise, add_assoc]

theorem backward_pointwise (p : Params) (grads : ℕ → ℚ) (boxes : ℕ → Box)
    (boxInd : ℕ → ℤ) (gradsImage : ℕ → ℚ) (q : ℕ) :
    crop_and_resize_backward p grads boxes boxInd gradsImage q
      = gradsImage q
        + ((List.range (totalCrops p)).map
            (fun idx => contribAt p grads boxes boxInd idx q)).sum := by
  unfold crop_and_resize_backward
  exact foldl_backStep_pointwise p grads boxes boxInd _ gradsImage q

theorem forward_at_cropIdx (p : Params) (image : ℕ → ℚ) (boxes : ℕ → Box)
    (boxInd : ℕ → ℤ) (extrap : ℚ) (crops : ℕ → ℚ) (b i j c : ℕ)
    (hb : b < p.num_boxes) (hi : i < p.crop_height) (hj : j < p.crop_width)
    (hc : c < p.depth) :
    crop_and_resize p image boxes boxInd extrap crops (cropIdx p b i j c)
      = cropElem p image (boxes b) (boxInd b) extrap i j c := by
  unfold crop_and_resize cropElemAt
  rw [if_pos (cropIdx_lt_totalCrops p b i j c hb hi hj hc),
    decodeCrop_cropIdx p b i j c hi hj hc]

/-! ### Concrete fixtures used by the witnesses -/

/-- 1 box, batch 1, 2x2 image, 2x2 crop, 1 channel. -/
def pFix : Params := ⟨1, 1, 2, 2, 2, 2, 1⟩

/-- 1 box, batch 1, 4x4 image, degenerate 1x1 crop, 1 channel. -/
def pDeg : Params := ⟨1, 1, 4, 4, 1, 1, 1⟩

/-- Image buffer holding its own flat index at every cell. -/
def imgFix : ℕ → ℚ := fun q => (q : ℚ)

/-- Every box is the full image extent. -/
def boxesFull : ℕ → Box := fun _ => ⟨0, 0, 1, 1⟩

/-- Every box lies entirely outside the representable bounds. -/
def boxesOut : ℕ → Box := fun _ => ⟨2, 2, 3, 3⟩

/-- Every box samples batch entry 0. -/
def indFix : ℕ → ℤ := fun _ => 0

/-- A pre-zeroed destination buffer. -/
def zerosFix : ℕ → ℚ := fun _ => 0

/-! ### Claims -/

/-- C1: for every in-bounds sampled coordinate of the forward operation
(box b with 0 ≤ box_ind[b] < batch, output row i, column j, channel c whose
absolute source coordinate lies inside [0, image_height-1] x
[0, image_width-1]), the output element equals the bilinear interpolation of
the four neighboring integer-coordinate samples with top-left floor indices
and fractional weights, any out-of-range neighbor contributing the
extrapolation value through `fetch` rather than being clamped. -/
theorem forward_inbounds_is_bilinear (p : Params) (image : ℕ → ℚ)
    (boxes : ℕ → Box) (boxInd : ℕ → ℤ) (extrap : ℚ) (crops : ℕ → ℚ)
    (b i j c : ℕ) (hb : b < p.num_boxes) (hi : i < p.crop_height)
    (hj : j < p.crop_width) (hc : c < p.depth) (hk0 : 0 ≤ boxInd b)
    (hkb : boxInd b < (p.batch : ℤ))
    (hin : inBounds p (srcY p (boxes b) i) (srcX p (boxes b) j)) :
    crop_and_resize p image boxes boxInd extrap crops (cropIdx p b i j c)
      = (1 - (srcY p (boxes b) i - (⌊srcY p (boxes b) i⌋ : ℚ)))
            * (1 - (srcX p (boxes b) j - (⌊srcX p (boxes b) j⌋ : ℚ)))
            * fetch p image extrap (boxInd b).toNat
                ⌊srcY p (boxes b) i⌋ ⌊srcX p (boxes b) j⌋ c
        + (1 - (srcY p (boxes b) i - (⌊srcY p (boxes b) i⌋ : ℚ)))
            * (srcX p (boxes b) j - (⌊srcX p (boxes b) j⌋ : ℚ))
            * fetch p image extrap (boxInd b).toNat
                ⌊srcY p (boxes b) i⌋ (⌊srcX p (boxes b) j⌋ + 1) c
        + (srcY p (boxes b) i - (⌊srcY p (boxes b) i⌋ : ℚ))
            * (1 - (srcX p (boxes b) j - (⌊srcX p (boxes b) j⌋ : ℚ)))
            * fetch p image extrap (boxInd b).toNat
                (⌊srcY p (boxes b) i⌋ + 1) ⌊srcX p (boxes b) j⌋ c
        + (srcY p (boxes b) i - (⌊srcY p (boxes b) i⌋ : ℚ))
            * (srcX p (boxes b) j - (⌊srcX p (boxes b) j⌋ : ℚ))
            * fetch p image extrap (boxInd b).toNat
                (⌊srcY p (boxes b) i⌋ + 1) (⌊srcX p (boxes b) j⌋ + 1) c := by
  rw [forward_at_cropIdx p image boxes boxInd extrap crops b i j c hb hi hj hc]
  simp only [cropElem, hin, if_true]
  ring

/-- Witness for C1 at the fixture: the hypotheses hold and the sampled
element of the 2x2 crop of the full box is the stated bilinear combination. -/
theorem forward_inbounds_is_bilinear_witness :
    inBounds pFix (srcY pFix (boxesFull 0) 0) (srcX pFix (boxesFull 0) 1)
    ∧ crop_and_resize pFix imgFix boxesFull indFix 7 zerosFix
        (cropIdx pFix 0 0 1 0)
      = (1 - (srcY pFix (boxesFull 0) 0 - (⌊srcY pFix (boxesFull 0) 0⌋ : ℚ)))
            * (1 - (srcX pFix (boxesFull 0) 1 - (⌊srcX pFix (boxesFull 0) 1⌋ : ℚ)))
            * fetch pFix imgFix 7 (indFix 0).toNat
                ⌊srcY pFix (boxesFull 0) 0⌋ ⌊srcX pFix (boxesFull 0) 1⌋ 0
        + (1 - (srcY pFix (boxesFull 0) 0 - (⌊srcY pFix (boxesFull 0) 0⌋ : ℚ)))
            * (srcX pFix (boxesFull 0) 1 - (⌊srcX pFix (boxesFull 0) 1⌋ : ℚ))
            * fetch pFix imgFix 7 (indFix 0).toNat
                ⌊srcY pFix (boxesFull 0) 0⌋ (⌊srcX pFix (boxesFull 0) 1⌋ + 1) 0
        + (srcY pFix (boxesFull 0) 0 - (⌊srcY pFix (boxesFull 0) 0⌋ : ℚ))
            * (1 - (srcX pFix (boxesFull 0) 1 - (⌊srcX pFix (boxesFull 0) 1⌋ : ℚ)))
            * fetch pFix imgFix 7 (indFix 0).toNat
                (⌊srcY pFix (boxesFull 0) 0⌋ + 1) ⌊srcX pFix (boxesFull 0) 1⌋ 0
        + (srcY pFix (boxesFull 0) 0 - (⌊srcY pFix (boxesFull 0) 0⌋ : ℚ))
            * (srcX pFix (boxesFull 0) 1 - (⌊srcX pFix (boxesFull 0) 1⌋ : ℚ))
            * fetch pFix imgFix 7 (indFix 0).toNat
                (⌊srcY pFix (boxesFull 0) 0⌋ + 1) (⌊srcX pFix (boxesFull 0) 1⌋ + 1) 0 :=
  ⟨by norm_num [inBounds, srcY, srcX, pFix, boxesFull],
   forward_inbounds_is_bilinear pFix imgFix boxesFull indFix 7 zerosFix 0 0 1 0
     (by decide) (by decide) (by decide) (by decide) (by decide) (by decide)
     (by norm_num [inBounds, srcY, srcX, pFix, boxesFull])⟩

/-- C3: every output element whose absolute source coordinate falls outside
[0, image_height-1] x [0, image_width-1] is set to the extrapolation value;
in particular every element of the crop of a box all of whose sampled
coordinates are out of range equals the extrapolation value. -/
theorem forward_out_of_bounds_extrapolates (p : Params) (image : ℕ → ℚ)
    (boxes : ℕ → Box) (boxInd : ℕ → ℤ) (extrap : ℚ) (crops : ℕ → ℚ)
    (b i j c : ℕ) (hb : b < p.num_boxes) (hi : i < p.crop_height)
    (hj : j < p.crop_width) (hc : c < p.depth)
    (hout : ¬ inBounds p (srcY p (boxes b) i) (srcX p (boxes b) j)) :
    crop_and_resize p image boxes boxInd extrap crops (cropIdx p b i j c)
      = extrap := by
  rw [forward_at_cropIdx p image boxes boxInd extrap crops b i j c hb hi hj hc]
  simp only [cropElem, hout, if_false]

/-- Witness for C3 at the fixture: the box (2,2,3,3) samples out of range and
its crop element is the extrapolation value. -/
theorem forward_out_of_bounds_extrapolates_witness :
    ¬ inBounds pFix (srcY pFix (boxesOut 0) 0) (srcX pFix (boxesOut 0) 0)
    ∧ crop_and_resize pFix imgFix boxesOut indFix 7 zerosFix
        (cropIdx pFix 0 0 0 0) = 7 :=
  ⟨by norm_num [inBounds, srcY, srcX, pFix, boxesOut],
   forward_out_of_bounds_extrapolates pFix imgFix boxesOut indFix 7 zerosFix
     0 0 0 0 (by decide) (by decide) (by decide) (by decide)
     (by norm_num [inBounds, srcY, srcX, pFix, boxesOut])⟩

/-- C6: when crop_height = 1 (respectively crop_width = 1) the forward
operation samples the midpoint of the box's vertical (respectively
horizontal) extent, replacing the linear mapping of output index to
coordinate for that dimension. -/
theorem degenerate_crop_samples_midpoint (p : Params) (box : Box) (i j : ℕ) :
    (p.crop_height = 1 →
      srcY p box i = (box.y1 + box.y2) / 2 * ((p.image_height : ℚ) - 1))
    ∧ (p.crop_width = 1 →
      srcX p box j = (box.x1 + box.x2) / 2 * ((p.image_width : ℚ) - 1)) := by
  constructor <;> intro h <;> simp [srcY, srcX, h]

/-- Witness for C6 at the degenerate fixture: a 1x1 crop of the box
(0, 0, 1, 1) over a 4x4 image samples the midpoint coordinate in both
dimensions. -/
theorem degenerate_crop_samples_midpoint_witness :
    srcY pDeg (boxesFull 0) 0
        = ((boxesFull 0).y1 + (boxesFull 0).y2) / 2 * ((pDeg.image_height : ℚ) - 1)
    ∧ srcX pDeg (boxesFull 0) 0
        = ((boxesFull 0).x1 + (boxesFull 0).x2) / 2 * ((pDeg.image_width : ℚ) - 1) :=
  ⟨(degenerate_crop_samples_midpoint pDeg (boxesFull 0) 0 0).1 rfl,
   (degenerate_crop_samples_midpoint pDeg (boxesFull 0) 0 0).2 rfl⟩

/-- C7: the forward operation fully populates the destination buffer of shape
(num_boxes, crop_height, crop_width, depth) — every flat index below
`totalCrops` holds its interpolated sample — and modifies nothing else: every
address at or beyond `totalCrops` keeps the prior contents, and the image,
boxes and index inputs are never written (they are consumed purely). -/
theorem forward_frame (p : Params) (image : ℕ → ℚ) (boxes : ℕ → Box)
    (boxInd : ℕ → ℤ) (extrap : ℚ) (crops : ℕ → ℚ) :
    (∀ idx, idx < totalCrops p →
      crop_and_resize p image boxes boxInd extrap crops idx
        = cropElemAt p image boxes boxInd extrap idx)
    ∧ ∀ idx, totalCrops p ≤ idx →
      crop_and_resize p image boxes boxInd extrap crops idx = crops idx := by
  constructor
  · intro idx h
    unfold crop_and_resize
    rw [if_pos h]
  · intro idx h
    unfold crop_and_resize
    rw [if_neg (Nat.not_lt.mpr h)]

/-- Witness for C7 at the fixture: flat index 0 is written with its sample
and flat index `totalCrops pFix` keeps the prior contents. -/
theorem forward_frame_witness :
    crop_and_resize pFix imgFix boxesFull indFix 7 zerosFix 0
        = cropElemAt pFix imgFix boxesFull indFix 7 0
    ∧ crop_and_resize pFix imgFix boxesFull indFix 7 zerosFix (totalCrops pFix)
        = zerosFix (totalCrops pFix) :=
  ⟨(forward_frame pFix imgFix boxesFull indFix 7 zerosFix).1 0 (by decide),
   (forward_frame pFix imgFix boxesFull indFix 7 zerosFix).2 (totalCrops pFix)
     (by decide)⟩

/-- C8: two runs of the forward operation on identical image, boxes, box
indices, geometry, extrapolation value and destination contents produce
identical output buffers; the operation keeps no hidden state. -/
theorem forward_runs_identical (pa pb : Params) (ia ib : ℕ → ℚ)
    (bxa bxb : ℕ → Box) (na nb : ℕ → ℤ) (ea eb : ℚ) (ca cb : ℕ → ℚ)
    (h1 : pa = pb) (h2 : ia = ib) (h3 : bxa = bxb) (h4 : na = nb)
    (h5 : ea = eb) (h6 : ca = cb) :
    crop_and_resize pa ia bxa na ea ca = crop_and_resize pb ib bxb nb eb cb := by
  rw [h1, h2, h3, h4, h5, h6]

/-- Witness for C8 at the fixture: the two runs coincide. -/
theorem forward_runs_identical_witness :
    pFix = pFix
    ∧ crop_and_resize pFix imgFix boxesFull indFix 7 zerosFix
        = crop_and_resize pFix imgFix boxesFull indFix 7 zerosFix :=
  ⟨rfl,
   forward_runs_identical pFix pFix imgFix imgFix boxesFull boxesFull indFix
     indFix 7 7 zerosFix zerosFix rfl rfl rfl rfl rfl rfl⟩

/-- A paired forward/backward run as the host autograd framework performs it:
the forward result depends on the extrapolation value, the backward result is
produced by the extrapolation-free backward launcher. -/
def pairedRun (p : Params) (image : ℕ → ℚ) (boxes : ℕ → Box) (boxInd : ℕ → ℤ)
    (extrap : ℚ) (crops grads gradsImage : ℕ → ℚ) : (ℕ → ℚ) × (ℕ → ℚ) :=
  (crop_and_resize p image boxes boxInd extrap crops,
   crop_and_resize_backward p grads boxes boxInd gradsImage)

/-- C10: the backward launcher takes no extrapolation-value argument, so the
image gradient of a paired run is identical whatever extrapolation value the
paired forward call used: out-of-bounds handling in the backward direction
never reintroduces the extrapolation constant. -/
theorem backward_free_of_extrapolation (p : Params) (image : ℕ → ℚ)
    (boxes : ℕ → Box) (boxInd : ℕ → ℤ) (crops grads gradsImage : ℕ → ℚ)
    (e1 e2 : ℚ) :
    (pairedRun p image boxes boxInd e1 crops grads gradsImage).2
      = (pairedRun p image boxes boxInd e2 crops grads gradsImage).2 := rfl

/-! ### Exact-grid sampling -/

theorem srcY_full (p : Params) (box : Box) (i : ℕ) (h1 : box.y1 = 0)
    (h2 : box.y2 = 1) (hch : p.crop_height = p.image_height)
    (hi : i < p.crop_height) : srcY p box i = (i : ℚ) := by
  unfold srcY
  rw [h1, h2, hch] at *
  by_cases h : 1 < p.image_height
  · rw [if_pos h]
    have h2le : 2 ≤ p.image_height := h
    have hne : (p.image_height : ℚ) - 1 ≠ 0 := by
      have : (2 : ℚ) ≤ (p.image_height : ℚ) := by exact_mod_cast h2le
      linarith
    field_simp
  · rw [if_neg h]
    have hH1 : p.image_height = 1 := by omega
    have hi0 : i = 0 := by omega
    subst hi0
    rw [hH1]
    norm_num

theorem srcX_full (p : Params) (box : Box) (j : ℕ) (h1 : box.x1 = 0)
    (h2 : box.x2 = 1) (hcw : p.crop_width = p.image_width)
    (hj : j < p.crop_width) : srcX p box j = (j : ℚ) := by
  unfold srcX
  rw [h1, h2, hcw] at *
  by_cases h : 1 < p.image_width
  · rw [if_pos h]
    have h2le : 2 ≤ p.image_width := h
    have hne : (p.image_width : ℚ) - 1 ≠ 0 := by
      have : (2 : ℚ) ≤ (p.image_width : ℚ) := by exact_mod_cast h2le
      linarith
    field_simp
  · rw [if_neg h]
    have hW1 : p.image_width = 1 := by omega
    have hj0 : j = 0 := by omega
    subst hj0
    rw [hW1]
    norm_num

theorem cropElem_grid (p : Params) (image : ℕ → ℚ) (box : Box) (k : ℤ)
    (extrap : ℚ) (i j c : ℕ) (hy : srcY p box i = (i : ℚ))
    (hx : srcX p box j = (j : ℚ)) (hiH : i < p.image_height)
    (hjW : j < p.image_width) :
    cropElem p image box k extrap i j c = image (imgIdx p k.toNat i j c) := by
  have hiQ : (i : ℚ) ≤ (p.image_height : ℚ) - 1 := by
    have : (i : ℚ) + 1 ≤ (p.image_height : ℚ) := by exact_mod_cast hiH
    linarith
  have hjQ : (j : ℚ) ≤ (p.image_width : ℚ) - 1 := by
    have : (j : ℚ) + 1 ≤ (p.image_width : ℚ) := by exact_mod_cast hjW
    linarith
  have hin : inBounds p ((i : ℚ)) ((j : ℚ)) :=
    ⟨Nat.cast_nonneg i, hiQ, Nat.cast_nonneg j, hjQ⟩
  have hiZ : (i : ℤ) ≤ (p.image_height : ℤ) - 1 := by
    have : (i : ℤ) < (p.image_height : ℤ) := by exact_mod_cast hiH
    omega
  have hjZ : (j : ℤ) ≤ (p.image_width : ℤ) - 1 := by
    have : (j : ℤ) < (p.image_width : ℤ) := by exact_mod_cast hjW
    omega
  have hr : idxInRange p ((i : ℕ) : ℤ) ((j : ℕ) : ℤ) :=
    ⟨Int.natCast_nonneg i, hiZ, Int.natCast_nonneg j, hjZ⟩
  simp only [cropElem, hy, hx, hin, if_true, Int.floor_natCast, Int.cast_natCast,
    sub_self, mul_zero, add_zero, mul_one, zero_mul, sub_zero]
  simp only [fetch, hr, if_true, Int.toNat_natCast]

/-- C2: for every box equal to the full image extent (0, 0, 1, 1) with a
valid batch index, when the crop size equals the image size the forward
operation reproduces the source image of that batch entry exactly: sampling
at exact grid points is the identity. -/
theorem forward_full_box_identity (p : Params) (image : ℕ → ℚ)
    (boxes : ℕ → Box) (boxInd : ℕ → ℤ) (extrap : ℚ) (crops : ℕ → ℚ)
    (b i j c : ℕ) (k : ℤ) (hch : p.crop_height = p.image_height)
    (hcw : p.crop_width = p.image_width) (hbox : boxes b = ⟨0, 0, 1, 1⟩)
    (hk : boxInd b = k) (hk0 : 0 ≤ k) (hkb : k < (p.batch : ℤ))
    (hb : b < p.num_boxes) (hi : i < p.crop_height) (hj : j < p.crop_width)
    (hc : c < p.depth) :
    crop_and_resize p image boxes boxInd extrap crops (cropIdx p b i j c)
      = image (imgIdx p k.toNat i j c) := by
  rw [forward_at_cropIdx p image boxes boxInd extrap crops b i j c hb hi hj hc,
    hbox, hk]
  exact cropElem_grid p image ⟨0, 0, 1, 1⟩ k extrap i j c
    (srcY_full p ⟨0, 0, 1, 1⟩ i rfl rfl hch hi)
    (srcX_full p ⟨0, 0, 1, 1⟩ j rfl rfl hcw hj)
    (hch ▸ hi) (hcw ▸ hj)

/-- Witness for C2 at the fixture: the 2x2 crop of the full box of a 2x2
image returns the source pixel at output position (1, 0). -/
theorem forward_full_box_identity_witness :
    pFix.crop_height = pFix.image_height ∧ boxesFull 0 = ⟨0, 0, 1, 1⟩
    ∧ crop_and_resize pFix imgFix boxesFull indFix 7 zerosFix
        (cropIdx pFix 0 1 0 0)
      = imgFix (imgIdx pFix (0 : ℤ).toNat 1 0 0) :=
  ⟨rfl, rfl,
   forward_full_box_identity pFix imgFix boxesFull indFix 7 zerosFix 0 1 0 0 0
     rfl rfl rfl rfl (by decide) (by decide) (by decide) (by decide) (by decide)
     (by decide)⟩

/-- C4: with a caller-pre-zeroed (or arbitrary) destination buffer, the
backward operation adds to each source cell exactly the incoming gradient
elements weighted by the forward bilinear weights of the (up to) four
neighbors of the recomputed source coordinate, and a gradient element whose
recomputed source coordinate is out of bounds contributes nothing to any
source location. -/
theorem backward_accumulates_bilinear (p : Params) (grads : ℕ → ℚ)
    (boxes : ℕ → Box) (boxInd : ℕ → ℤ) (gradsImage : ℕ → ℚ) :
    (∀ q, crop_and_resize_backward p grads boxes boxInd gradsImage q
        = gradsImage q
          + ((List.range (totalCrops p)).map
              (fun idx => contribAt p grads boxes boxInd idx q)).sum)
    ∧ ∀ idx q,
        ¬ inBounds p (srcY p (boxes (decodeCrop p idx).1) (decodeCrop p idx).2.1)
            (srcX p (boxes (decodeCrop p idx).1) (decodeCrop p idx).2.2.1) →
          contribAt p grads boxes boxInd idx q = 0 := by
  refine ⟨backward_pointwise p grads boxes boxInd gradsImage, ?_⟩
  intro idx q hout
  simp [contribAt, hout]

/-- Witness for C4 at the fixture: the gradient element of the fully
out-of-bounds box (2, 2, 3, 3) contributes nothing to source cell 0. -/
theorem backward_accumulates_bilinear_witness :
    contribAt pFix (fun _ => (1 : ℚ)) boxesOut indFix 0 0 = 0 :=
  (backward_accumulates_bilinear pFix (fun _ => (1 : ℚ)) boxesOut indFix
      zerosFix).2 0 0
    (by norm_num [inBounds, srcY, srcX, pFix, boxesOut, decodeCrop])

/-- The contribution of an all-ones incoming gradient is exactly the forward
bilinear weight. -/
theorem contribAt_ones (p : Params) (boxes : ℕ → Box) (boxInd : ℕ → ℤ)
    (idx q : ℕ) :
    contribAt p (fun _ => 1) boxes boxInd idx q
      = fwdWeight p boxes boxInd idx q := by
  unfold contribAt fwdWeight
  by_cases hin : inBounds p
      (srcY p (boxes (decodeCrop p idx).1) (decodeCrop p idx).2.1)
      (srcX p (boxes (decodeCrop p idx).1) (decodeCrop p idx).2.2.1)
  · simp only [hin, if_true, one_mul]
  · simp [hin]

/-- C5: running the backward operation on an all-ones gradient from a zeroed
image-gradient buffer yields at each source cell exactly the sum, over all
boxes and output positions, of the forward-pass bilinear weights with which
that cell is sampled. -/
theorem backward_ones_sums_forward_weights (p : Params) (boxes : ℕ → Box)
    (boxInd : ℕ → ℤ) (q : ℕ)
    (hvalid : ∀ b, b < p.num_boxes → 0 ≤ boxInd b ∧ boxInd b < (p.batch : ℤ)) :
    crop_and_resize_backward p (fun _ => 1) boxes boxInd (fun _ => 0) q
      = ((List.range (totalCrops p)).map
          (fun idx => fwdWeight p boxes boxInd idx q)).sum := by
  rw [backward_pointwise]
  simp only [contribAt_ones, zero_add]

/-- Witness for C5 at the fixture: the round-trip weight sum identity at
source cell 0 of the full-box 2x2 configuration. -/
theorem backward_ones_sums_forward_weights_witness :
    crop_and_resize_backward pFix (fun _ => 1) boxesFull indFix (fun _ => 0) 0
      = ((List.range (totalCrops pFix)).map
          (fun idx => fwdWeight pFix boxesFull indFix idx 0)).sum :=
  backward_ones_sums_forward_weights pFix boxesFull indFix 0
    (fun _ _ => ⟨by norm_num [indFix], by norm_num [indFix, pFix]⟩)

/-- C9: neither operation reports errors or validates shapes or indices at
run time: for every input — with no precondition on the box-to-batch indices,
box count or buffer contents — both return normally and are fully
characterized by their per-element formulas, the geometric sampling check
being the only in-bounds test taken. -/
theorem no_runtime_validation (p : Params) (image : ℕ → ℚ) (boxes : ℕ → Box)
    (boxInd : ℕ → ℤ) (extrap : ℚ) (crops grads gradsImage : ℕ → ℚ) :
    (∀ idx, crop_and_resize p image boxes boxInd extrap crops idx
        = if idx < totalCrops p then cropElemAt p image boxes boxInd extrap idx
          else crops idx)
    ∧ ∀ q, crop_and_resize_backward p grads boxes boxInd gradsImage q
        = gradsImage q
          + ((List.range (totalCrops p)).map
              (fun idx => contribAt p grads boxes boxInd idx q)).sum :=
  ⟨fun _ => rfl, backward_pointwise p grads boxes boxInd gradsImage⟩

end CropAndResize
